import Mathlib

/-! # Query builder and merge (`query/query.go`)

A shallow embedding of the `Query` aggregate of package `query`, of its chain
methods and package-level constructors, and of the merge `Query.Build`.

Go slices are embedded as `Option (List α)`: `none` is the `nil` slice and
`some xs` a non-nil slice holding `xs`.  The distinction matters because
`Build` tests `Fields != nil` while `From` tests `len(Fields) == 0`.
Every method has a value receiver, so a method is a function returning the
new value; `Build` writes through its pointer argument, so it returns the new
target.
-/

namespace Grimoire

/-! ## Go slices -/

/-- A Go slice value: `none` is `nil`, `some xs` is a non-nil slice. -/
abbrev Slice (α : Type) := Option (List α)

/-- The elements of a slice, in order (`nil` has none). -/
def Slice.toList {α : Type} : Slice α → List α
  | none => []
  | some xs => xs

/-- Go `len(s)`. -/
def Slice.len {α : Type} (s : Slice α) : Nat := s.toList.length

/-- Go `append(s, t...)`: with nothing to add the slice `s` itself is
returned (a `nil` slice stays `nil`), otherwise the result is non-nil. -/
def goAppend {α : Type} (s t : Slice α) : Slice α :=
  match t.toList with
  | [] => s
  | y :: ys => some (s.toList ++ y :: ys)

/-! ## Clause value types

The clause types are declared in sibling files of the package; `query.go`
only uses them. -/

/-- Modelled from the spec: the opaque parameter values carried by filter
leaves and join fragments (Go `interface{}`), of which the spec's scenarios
use integers and strings. -/
inductive Value where
  | int (i : Int)
  | str (s : String)
  deriving DecidableEq, Repr

/-- Modelled from the spec: `FilterClause`, the recursive predicate tree of
§3: a neutral/empty node (the zero value, "unset"), a leaf comparison
(field, operator, values), an AND-node and an OR-node over an ordered
sequence of children. -/
inductive FilterClause where
  | neutral
  | leaf (field : String) (op : String) (values : List Value)
  | and (inner : List FilterClause)
  | or (inner : List FilterClause)

/-- The neutral node test. -/
def FilterClause.isNeutral : FilterClause → Bool
  | .neutral => true
  | _ => false

/-- The operands an AND-node contributes when it is flattened into an
enclosing AND sequence. -/
def FilterClause.andOperands : FilterClause → List FilterClause
  | .and inner => inner
  | f => [f]

/-- Modelled from the spec: `FilterClause.And(others...)` of §4.1, which
AND-combines the receiver with all arguments, skipping every neutral operand
and flattening AND-nodes into one sequence.  The neutral node is the identity
element of AND (§3, glossary): when nothing is left the result is neutral,
and when one operand is left the result is that operand. -/
def FilterClause.And (c : FilterClause) (others : List FilterClause) : FilterClause :=
  match (c :: others).filter (fun f => !f.isNeutral) with
  | [] => .neutral
  | [x] => x
  | ops => .and (ops.flatMap FilterClause.andOperands)

/-- Modelled from the spec: the leaf `Eq(field, value)` used by the spec's
scenarios (`Eq("id", 1)`). -/
def FilterEq (field : String) (value : Value) : FilterClause :=
  .leaf field "=" [value]

/-- The operands an OR-node contributes when it is flattened into an
enclosing OR sequence. -/
def FilterClause.orOperands : FilterClause → List FilterClause
  | .or inner => inner
  | f => [f]

/-- Modelled from the spec: `FilterClause.Or(others...)` of §4.1, symmetric
to `And` with OR-nodes: neutral operands are skipped ("OR with the neutral
element yields the other operand unchanged"), OR-nodes are flattened into one
sequence, and a single remaining operand is the result.  The spec leaves the
meaning of OR with a neutral operand open (§9); no theorem below depends on
it. -/
def FilterClause.Or (c : FilterClause) (others : List FilterClause) : FilterClause :=
  match (c :: others).filter (fun f => !f.isNeutral) with
  | [] => .neutral
  | [x] => x
  | ops => .or (ops.flatMap FilterClause.orOperands)

/-- Modelled from the spec: `FilterAnd(filters...)`, the AND-group of the
given filters (§4.3), combined by the rules of `And`: no filter gives the
neutral filter, one filter gives that filter. -/
def FilterAnd (filters : List FilterClause) : FilterClause :=
  FilterClause.neutral.And filters

mutual
/-- Modelled from the spec: whether a row satisfies a filter, `sat` telling
which leaf comparisons the row satisfies.  The neutral filter matches
everything (§3), an AND-node needs every child, an OR-node some child. -/
def FilterClause.holds (sat : String → String → List Value → Bool) : FilterClause → Bool
  | .neutral => true
  | .leaf field op values => sat field op values
  | .and inner => holdsAll sat inner
  | .or inner => holdsAny sat inner
/-- Every filter of the list is satisfied. -/
def holdsAll (sat : String → String → List Value → Bool) : List FilterClause → Bool
  | [] => true
  | f :: fs => f.holds sat && holdsAll sat fs
/-- Some filter of the list is satisfied. -/
def holdsAny (sat : String → String → List Value → Bool) : List FilterClause → Bool
  | [] => false
  | f :: fs => f.holds sat || holdsAny sat fs
end

/-- Modelled from the spec: `SelectClause` of §3, fields plus distinct flag. -/
structure SelectClause where
  Fields : Slice String := none
  OnlyDistinct : Bool := false
  deriving DecidableEq, Repr

/-- Modelled from the spec: `JoinClause` of §3: mode, collection, a
`from`/`to` column-equality condition, and the arguments of the raw fragment
form. -/
structure JoinClause where
  Mode : String := ""
  Collection : String := ""
  From : String := ""
  To : String := ""
  Arguments : Slice Value := none
  deriving DecidableEq, Repr

/-- Modelled from the spec: `GroupClause` of §3, group-by fields plus the
having-filter. -/
structure GroupClause where
  Fields : Slice String := none
  Filter : FilterClause := .neutral

/-- Modelled from the spec: `SortClause` of §3, a field and a direction
(`true` is ascending). -/
structure SortClause where
  Field : String := ""
  Asc : Bool := true
  deriving DecidableEq, Repr

/-- The `Offset` scalar (`0` means unset). -/
abbrev Offset := Int

/-- The `Limit` scalar (`0` means unset). -/
abbrev Limit := Int

/-- Modelled from the spec: `NewSelect(fields...)` of §4.2, a select clause
over the given fields with the distinct flag off. -/
def NewSelect (fields : Slice String) : SelectClause :=
  { Fields := fields, OnlyDistinct := false }

/-- Modelled from the spec: `NewJoinWith(mode, collection, from, to)` of
§4.2, one join clause holding exactly its arguments. -/
def NewJoinWith (mode collection from_ to_ : String) : JoinClause :=
  { Mode := mode, Collection := collection, From := from_, To := to_ }

/-- Modelled from the spec: `NewGroup(fields...)` of §4.2, a group clause
over the given fields with no having-filter. -/
def NewGroup (fields : Slice String) : GroupClause :=
  { Fields := fields, Filter := .neutral }

/-- Modelled from the spec: `NewJoinFragment(expr, args...)` of §4.2, one
join clause in the raw fragment-with-arguments form of §3.  The spec names no
field for the expression; it is kept in `Mode` here, next to its arguments. -/
def NewJoinFragment (expr : String) (args : Slice Value) : JoinClause :=
  { Mode := expr, Arguments := args }

/-- Modelled from the spec: `NewSortAsc(field)` of §4.2, one ascending sort
clause on the field. -/
def NewSortAsc (field : String) : SortClause :=
  { Field := field, Asc := true }

/-- Modelled from the spec: `NewSortDesc(field)` of §4.2, one descending sort
clause on the field. -/
def NewSortDesc (field : String) : SortClause :=
  { Field := field, Asc := false }

/-! ## The Query aggregate (`query.go:4-14`) -/

/-- The `Query` struct; the default of every field is Go's zero value. -/
structure Query where
  empty : Bool := false
  Collection : String := ""
  SelectClause : SelectClause := {}
  JoinClause : Slice JoinClause := none
  WhereClause : FilterClause := .neutral
  GroupClause : GroupClause := {}
  SortClause : Slice SortClause := none
  OffsetClause : Offset := 0
  LimitClause : Limit := 0

/-- The zero value `Query{}` (`var q Query`). -/
def zero : Query := {}

/-! ## Merge (`query.go:16-47`) -/

/-- The method `func (q Query) Build(query *Query)`: the value of `*query`
afterwards.  Line 37 assigns the appended sorts to the receiver copy `q`, not to `query`;
the updated copy is what lines 39-45 read.  Slices are read here as the
sequences of their elements; what the `append` of line 37 writes into the
backing array of the fragment's sorts, and so into a target that shares that
array, is followed by `BuildSortsInMemory` below. -/
def Query.Build (q : Query) (query : Query) : Query :=
  if query.empty then
    q
  else
    let query := if q.Collection ≠ "" then { query with Collection := q.Collection } else query
    let query :=
      if q.SelectClause.Fields ≠ none then { query with SelectClause := q.SelectClause } else query
    let query := { query with JoinClause := goAppend query.JoinClause q.JoinClause }
    let query := { query with WhereClause := query.WhereClause.And [q.WhereClause] }
    let query :=
      if q.GroupClause.Fields ≠ none then { query with GroupClause := q.GroupClause } else query
    let q := { q with SortClause := goAppend q.SortClause query.SortClause }
    let query := if q.OffsetClause ≠ 0 then { query with OffsetClause := q.OffsetClause } else query
    let query := if q.LimitClause ≠ 0 then { query with LimitClause := q.LimitClause } else query
    query

/-- Modelled from the spec: the method `JoinClause.Build(query)`, declared
next to `JoinClause` and absent from `query.go`.  By §4.3 a chain join
operation merges its one clause into the current query and "joins always
append, preserving order": the clause is appended to the query's joins and
no other field is written. -/
def JoinClause.Build (j : JoinClause) (query : Query) : Query :=
  { query with JoinClause := goAppend query.JoinClause (some [j]) }

/-! ## Chain methods (`query.go:49-158`)

A variadic parameter is the slice the callee receives: `nil` when the call
passes no argument.  Filter arguments are handed to the filter tree as the
list of their elements. -/

/-- The method `Query.Select`. -/
def Query.Select (q : Query) (fields : Slice String) : Query :=
  { q with SelectClause := NewSelect fields }

/-- The method `Query.From`. -/
def Query.From (q : Query) (collection : String) : Query :=
  let q := { q with Collection := collection }
  if q.SelectClause.Fields.len = 0 then
    { q with SelectClause := NewSelect (some [collection ++ ".*"]) }
  else
    q

/-- The method `Query.Distinct`. -/
def Query.Distinct (q : Query) : Query :=
  { q with SelectClause := { q.SelectClause with OnlyDistinct := true } }

/-- The method `Query.Where`. -/
def Query.Where (q : Query) (filters : List FilterClause) : Query :=
  { q with WhereClause := q.WhereClause.And filters }

/-- The method `Query.Group`: only the `Fields` of the group clause are
assigned. -/
def Query.Group (q : Query) (fields : Slice String) : Query :=
  { q with GroupClause := { q.GroupClause with Fields := fields } }

/-- The method `Query.Having`. -/
def Query.Having (q : Query) (filters : List FilterClause) : Query :=
  { q with GroupClause := { q.GroupClause with Filter := q.GroupClause.Filter.And filters } }

/-- The method `Query.Offset`. -/
def Query.Offset (q : Query) (offset : Offset) : Query :=
  { q with OffsetClause := offset }

/-- The method `Query.Limit`. -/
def Query.Limit (q : Query) (limit : Limit) : Query :=
  { q with LimitClause := limit }

/-- The method `Query.JoinWith`: the clause's own `Build` is run on the
receiver copy, which is returned. -/
def Query.JoinWith (q : Query) (mode collection from_ to_ : String) : Query :=
  (NewJoinWith mode collection from_ to_).Build q

/-- The method `Query.JoinOn`. -/
def Query.JoinOn (q : Query) (collection from_ to_ : String) : Query :=
  q.JoinWith "JOIN" collection from_ to_

/-- The method `Query.Join`. -/
def Query.Join (q : Query) (collection : String) : Query :=
  q.JoinOn collection "" ""

/-- The method `Query.JoinFragment`. -/
def Query.JoinFragment (q : Query) (expr : String) (args : Slice Value) : Query :=
  (NewJoinFragment expr args).Build q

/-- The method `Query.OrWhere`. -/
def Query.OrWhere (q : Query) (filters : List FilterClause) : Query :=
  { q with WhereClause := q.WhereClause.Or [FilterAnd filters] }

/-- The method `Query.OrHaving`. -/
def Query.OrHaving (q : Query) (filters : List FilterClause) : Query :=
  { q with GroupClause :=
      { q.GroupClause with Filter := q.GroupClause.Filter.Or [FilterAnd filters] } }

/-- The local `sorts` of `SortAsc` / `SortDesc`: `make([]SortClause,
len(fields))` followed by the loop `sorts[i] = mk(fields[i])` over
`range fields`. -/
def makeSorts (mk : String → SortClause) (fields : Slice String) : Slice SortClause :=
  some ((List.range fields.len).foldl
    (fun sorts i => sorts.set i (mk (fields.toList.getD i "")))
    (List.replicate fields.len {}))

/-- The method `Query.SortAsc`. -/
def Query.SortAsc (q : Query) (fields : Slice String) : Query :=
  let sorts := makeSorts NewSortAsc fields
  { q with SortClause := goAppend q.SortClause sorts }

/-- The method `Query.SortDesc`. -/
def Query.SortDesc (q : Query) (fields : Slice String) : Query :=
  let sorts := makeSorts NewSortDesc fields
  { q with SortClause := goAppend q.SortClause sorts }

/-- The method `Query.Sort`. -/
def Query.Sort (q : Query) (fields : Slice String) : Query :=
  q.SortAsc fields

/-! ## Package-level constructors (`query.go:160-214`) -/

/-- The function `From(collection)`. -/
def From (collection : String) : Query :=
  { Collection := collection, SelectClause := NewSelect (some [collection ++ ".*"]) }

/-- The function `JoinWith(mode, collection, from, to)`. -/
def JoinWith (mode collection from_ to_ : String) : Query :=
  { JoinClause := some [NewJoinWith mode collection from_ to_] }

/-- The function `JoinOn(collection, from, to)`. -/
def JoinOn (collection from_ to_ : String) : Query :=
  JoinWith "JOIN" collection from_ to_

/-- The function `Join(collection)`. -/
def Join (collection : String) : Query :=
  JoinOn collection "" ""

/-- The function `Group(fields...)`. -/
def Group (fields : Slice String) : Query :=
  { GroupClause := NewGroup fields }

/-- The function `JoinFragment(expr, args...)`. -/
def JoinFragment (expr : String) (args : Slice Value) : Query :=
  { JoinClause := some [NewJoinFragment expr args] }

/-- The function `Where(filters...)`. -/
def Where (filters : List FilterClause) : Query :=
  { WhereClause := FilterAnd filters }

/-! ## Merging a sequence of fragments -/

/-- Merge the fragments `fs`, in order, into `target` with `Build`. -/
def buildAll (fs : List Query) (target : Query) : Query :=
  fs.foldl (fun acc f => f.Build acc) target

/-- The value of the last fragment that sets a scalar field (`isSet` says
whether a fragment sets it, `get` reads it), or `dflt` when none does. -/
def lastSet {α : Type} (isSet : Query → Bool) (get : Query → α) (dflt : α) (fs : List Query) : α :=
  match fs.reverse.find? isSet with
  | some f => get f
  | none => dflt

/-! ## Queries reachable through the API -/

/-- The queries obtained from the zero value and the package-level
constructors by the chain methods that `query.go` defines in full (the chain
join methods hand over to `JoinClause.Build`, which is not in the file) and
by `Build` with any fragment. -/
inductive Reachable : Query → Prop
  | zeroValue : Reachable zero
  | pkgFrom (c : String) : Reachable (From c)
  | pkgJoin (c : String) : Reachable (Join c)
  | pkgJoinOn (c a b : String) : Reachable (JoinOn c a b)
  | pkgJoinWith (m c a b : String) : Reachable (JoinWith m c a b)
  | pkgJoinFragment (e : String) (args : Slice Value) : Reachable (JoinFragment e args)
  | pkgWhere (ps : List FilterClause) : Reachable (Where ps)
  | pkgGroup (fs : Slice String) : Reachable (Group fs)
  | select (q : Query) (fs : Slice String) : Reachable q → Reachable (q.Select fs)
  | chainFrom (q : Query) (c : String) : Reachable q → Reachable (q.From c)
  | distinct (q : Query) : Reachable q → Reachable q.Distinct
  | chainWhere (q : Query) (ps : List FilterClause) : Reachable q → Reachable (q.Where ps)
  | orWhere (q : Query) (ps : List FilterClause) : Reachable q → Reachable (q.OrWhere ps)
  | group (q : Query) (fs : Slice String) : Reachable q → Reachable (q.Group fs)
  | having (q : Query) (ps : List FilterClause) : Reachable q → Reachable (q.Having ps)
  | orHaving (q : Query) (ps : List FilterClause) : Reachable q → Reachable (q.OrHaving ps)
  | sort (q : Query) (fs : Slice String) : Reachable q → Reachable (q.Sort fs)
  | sortAsc (q : Query) (fs : Slice String) : Reachable q → Reachable (q.SortAsc fs)
  | sortDesc (q : Query) (fs : Slice String) : Reachable q → Reachable (q.SortDesc fs)
  | offset (q : Query) (n : Offset) : Reachable q → Reachable (q.Offset n)
  | limit (q : Query) (n : Limit) : Reachable q → Reachable (q.Limit n)
  | build (f t : Query) : Reachable t → Reachable (f.Build t)

/-! ## Slices in memory

The definitions above take a slice as the sequence of its elements.  A Go
slice is a header (pointer, length, capacity) over a backing array, and
copying a `Query` copies the headers only.  The model below keeps the backing
arrays in a heap, to follow what `append` writes. -/

/-- A slice header over the backing array at address `ptr` (slices here
start at the base of their array). -/
structure SliceHdr where
  ptr : Nat
  len : Nat
  cap : Nat
  deriving DecidableEq, Repr

/-- The backing arrays, by address. -/
abbrev Heap (α : Type) := List (List α)

/-- The elements seen through a slice header. -/
def Heap.view {α : Type} (h : Heap α) (s : SliceHdr) : List α :=
  (h.getD s.ptr []).take s.len

/-- Go `append(s, xs...)` on the heap: when `len(s) + len(xs)` fits the
capacity the elements are written into the backing array of `s` right after
its length, otherwise a new array is allocated (its capacity, at least the
needed length, is chosen by `grow`) and the elements copied. -/
def memAppend {α : Type} (grow : Nat → Nat) (dflt : α) (h : Heap α) (s : SliceHdr)
    (xs : List α) : Heap α × SliceHdr :=
  if s.len + xs.length ≤ s.cap then
    let arr := h.getD s.ptr []
    (h.set s.ptr (arr.take s.len ++ xs ++ arr.drop (s.len + xs.length)),
      { s with len := s.len + xs.length })
  else
    let n := s.len + xs.length
    let c := max n (grow n)
    (h ++ [h.view s ++ xs ++ List.replicate (c - n) dflt], { ptr := h.length, len := n, cap := c })

/-- The method `Query.SortAsc` on the heap, for the one field it reads and
writes: the header `sortClause` is `q.SortClause` of the receiver copy, the
result is the heap afterwards and the header of the returned query's
`SortClause`.  The local `sorts` is a fresh array. -/
def SortAscInMemory (grow : Nat → Nat) (h : Heap SortClause) (sortClause : SliceHdr)
    (fields : Slice String) : Heap SortClause × SliceHdr :=
  let sorts := (makeSorts NewSortAsc fields).toList
  let h := h ++ [sorts]
  memAppend grow {} h sortClause sorts

/-- Line 29 of `Query.Build` on the heap (merge branch): `target` is the
header of `query.JoinClause`, `fragment` that of `q.JoinClause`; the result
is the heap afterwards and the new header of `query.JoinClause`. -/
def BuildJoinsInMemory (grow : Nat → Nat) (h : Heap JoinClause) (target fragment : SliceHdr) :
    Heap JoinClause × SliceHdr :=
  memAppend grow {} h target (h.view fragment)

/-- A fragment carrying one ascending sort on `name`. -/
def sortFragment : Query := { SortClause := some [{ Field := "name", Asc := true }] }

/-- A target carrying one descending sort on `id`. -/
def sortedTarget : Query := { SortClause := some [{ Field := "id", Asc := false }] }

/-- A fragment whose select clause has a non-nil field list with zero
elements (`SelectClause{Fields: []string{}, OnlyDistinct: true}`) and whose
group clause likewise has a non-nil, zero-length field list. -/
def emptyFieldsFragment : Query :=
  { SelectClause := { Fields := some [], OnlyDistinct := true },
    GroupClause := { Fields := some [], Filter := .neutral } }

/-- A target selecting `id` and grouping by `city`. -/
def selectingTarget : Query :=
  { Collection := "users",
    SelectClause := { Fields := some ["id"], OnlyDistinct := false },
    GroupClause := { Fields := some ["city"], Filter := .neutral } }

/-- A fragment setting the collection and the offset, leaving the limit
unset. -/
def pagedFragment : Query := { Collection := "orders", OffsetClause := 20 }

/-- A query whose group clause carries the having-filter `id = 1` and no
group fields. -/
def havingTarget : Query :=
  { GroupClause := { Fields := none, Filter := FilterEq "id" (.int 1) } }

/-- A pristine target (marker set) that already holds a collection. -/
def pristineTarget : Query := { empty := true, Collection := "users" }

/-- A heap holding one backing array of capacity 2 whose first element is
the sort on `x` (as left by `make([]SortClause, 1, 2)` and one assignment). -/
def sharedSortHeap : Heap SortClause := [[NewSortAsc "x", {}]]

/-- The `SortClause` header of a query `q1` over that array: length 1,
capacity 2. -/
def sharedSortHdr : SliceHdr := { ptr := 0, len := 1, cap := 2 }

/-- The heap and the `SortClause` header of `q2 := q1.SortAsc("b")`. -/
def derivedB (grow : Nat → Nat) : Heap SortClause × SliceHdr :=
  SortAscInMemory grow sharedSortHeap sharedSortHdr (some ["b"])

/-- The heap and the `SortClause` header of `q3 := q1.SortAsc("c")`, derived
from the same `q1` after `q2`. -/
def derivedC (grow : Nat → Nat) : Heap SortClause × SliceHdr :=
  SortAscInMemory grow (derivedB grow).1 sharedSortHdr (some ["c"])

/-- A heap with the joins array of a target `t1` (capacity 2, one join on
`a`) and the one-join arrays of two fragments (on `b` and on `c`). -/
def sharedJoinHeap : Heap JoinClause :=
  [[NewJoinWith "JOIN" "a" "" "", {}], [NewJoinWith "JOIN" "b" "" ""],
    [NewJoinWith "JOIN" "c" "" ""]]

/-- The `JoinClause` header of the target `t1`: length 1, capacity 2. -/
def sharedJoinHdr : SliceHdr := { ptr := 0, len := 1, cap := 2 }

/-- The heap and `JoinClause` header of `t2` after `t2 := t1` and the merge of
the fragment joining `b` into `t2`. -/
def mergedB (grow : Nat → Nat) : Heap JoinClause × SliceHdr :=
  BuildJoinsInMemory grow sharedJoinHeap sharedJoinHdr { ptr := 1, len := 1, cap := 1 }

/-- The heap and `JoinClause` header of `t3` after `t3 := t1` and the merge of
the fragment joining `c` into `t3`, run after the merge into `t2`. -/
def mergedC (grow : Nat → Nat) : Heap JoinClause × SliceHdr :=
  BuildJoinsInMemory grow (mergedB grow).1 sharedJoinHdr { ptr := 2, len := 1, cap := 1 }

theorem goAppend_toList {α : Type} (s t : Slice α) :
    (goAppend s t).toList = s.toList ++ t.toList := by
  unfold goAppend
  cases h : Slice.toList t with
  | nil => simp
  | cons y ys => simp [Slice.toList]

theorem goAppend_nil {α : Type} (s : Slice α) : goAppend s none = s := by
  simp [goAppend, Slice.toList]

theorem And_neutral (c : FilterClause) : c.And [FilterClause.neutral] = c := by
  cases c <;> simp [FilterClause.And, FilterClause.isNeutral]

theorem neutral_And_single (p : FilterClause) : FilterClause.neutral.And [p] = p := by
  cases p <;> simp [FilterClause.And, FilterClause.isNeutral]

theorem Build_merge_empty (f t : Query) (h : t.empty = false) : (f.Build t).empty = false := by
  unfold Query.Build
  simp only [h]
  simp only [Bool.false_eq_true, if_false]
  split_ifs <;> simp [h]

theorem lastSet_cons {α : Type} (isSet : Query → Bool) (get : Query → α) (dflt : α)
    (f : Query) (fs : List Query) :
    lastSet isSet get dflt (f :: fs)
      = lastSet isSet get (if isSet f = true then get f else dflt) fs := by
  unfold lastSet
  rw [List.reverse_cons, List.find?_append]
  cases hfind : List.find? isSet fs.reverse with
  | some g => simp
  | none =>
    cases hf : isSet f <;> simp [List.find?, hf]

theorem buildAll_lastSet {α : Type} (isSet : Query → Bool) (get : Query → α)
    (hstep : ∀ f t : Query, t.empty = false →
      get (f.Build t) = if isSet f = true then get f else get t) :
    ∀ (fs : List Query) (t : Query), t.empty = false →
      get (buildAll fs t) = lastSet isSet get (get t) fs := by
  intro fs
  induction fs with
  | nil => intro t _; simp [buildAll, lastSet]
  | cons f fs ih =>
    intro t ht
    have hb : buildAll (f :: fs) t = buildAll fs (f.Build t) := by simp [buildAll]
    rw [hb, ih (f.Build t) (Build_merge_empty f t ht), hstep f t ht, lastSet_cons]

theorem Build_scalars (f t : Query) (h : t.empty = false) :
    (f.Build t).Collection = (if f.Collection ≠ "" then f.Collection else t.Collection) ∧
    (f.Build t).OffsetClause = (if f.OffsetClause ≠ 0 then f.OffsetClause else t.OffsetClause) ∧
    (f.Build t).LimitClause = (if f.LimitClause ≠ 0 then f.LimitClause else t.LimitClause) := by
  unfold Query.Build
  simp only [h, Bool.false_eq_true, if_false]
  refine ⟨?_, ?_, ?_⟩ <;> split_ifs <;> simp_all

/-! ## Theorems -/

/-- C1: Build on a pristine target. When the target's marker `empty` is set,
the target after `f.Build(&t)` is `f` itself, in every field, the marker
included, whatever the target held. -/
theorem Build_pristine_replaces (f t : Query) (h : t.empty = true) : f.Build t = f := by
  simp [Query.Build, h]

/-- An instance of the pristine-target law: a one-sort fragment replaces a
pristine target that held a collection. -/
theorem Build_pristine_replaces_witness :
    pristineTarget.empty = true ∧ sortFragment.Build pristineTarget = sortFragment :=
  ⟨rfl, Build_pristine_replaces sortFragment pristineTarget rfl⟩

/-- C2: at the fragment `sortFragment` (sorts `[name asc]`) and the target
`sortedTarget` (marker unset, sorts `[id desc]`) the target's sorts after
`Build` are still `[id desc]`, not the fragment's sorts followed by the
target's: line 37 stores the appended sequence in the receiver copy. -/
theorem Build_sorts_not_merged :
    sortedTarget.empty = false ∧
    (sortFragment.Build sortedTarget).SortClause = some [{ Field := "id", Asc := false }] ∧
    (sortFragment.Build sortedTarget).SortClause
      ≠ goAppend sortFragment.SortClause sortedTarget.SortClause := by
  refine ⟨rfl, ?_, ?_⟩
  · simp [Query.Build, sortFragment, sortedTarget]
  · simp [Query.Build, sortFragment, sortedTarget, goAppend, Slice.toList]

/-- C3: Build scalar override policy. For a target whose marker is unset,
after `f.Build(&t)` the collection is the fragment's when that is non-empty
and the target's otherwise; the offset and the limit are the fragment's when
non-zero and the target's otherwise. -/
theorem Build_scalar_override (f t : Query) (h : t.empty = false) :
    (f.Build t).Collection = (if f.Collection ≠ "" then f.Collection else t.Collection) ∧
    (f.Build t).OffsetClause = (if f.OffsetClause ≠ 0 then f.OffsetClause else t.OffsetClause) ∧
    (f.Build t).LimitClause = (if f.LimitClause ≠ 0 then f.LimitClause else t.LimitClause) := by
  unfold Query.Build
  simp only [h, Bool.false_eq_true, if_false]
  refine ⟨?_, ?_, ?_⟩ <;> split_ifs <;> simp_all

/-- An instance of the scalar policy: a fragment with collection `orders`,
offset 20 and no limit merged into a target on `users`. -/
theorem Build_scalar_override_witness :
    selectingTarget.empty = false ∧
    (pagedFragment.Build selectingTarget).Collection
      = (if pagedFragment.Collection ≠ "" then pagedFragment.Collection
         else selectingTarget.Collection) ∧
    (pagedFragment.Build selectingTarget).OffsetClause
      = (if pagedFragment.OffsetClause ≠ 0 then pagedFragment.OffsetClause
         else selectingTarget.OffsetClause) ∧
    (pagedFragment.Build selectingTarget).LimitClause
      = (if pagedFragment.LimitClause ≠ 0 then pagedFragment.LimitClause
         else selectingTarget.LimitClause) :=
  ⟨rfl, Build_scalar_override pagedFragment selectingTarget rfl⟩

/-- C4, as stated, fails: the fragment `emptyFieldsFragment` has zero
selected fields and zero group fields (both lists non-nil), the target
`selectingTarget` has its marker unset, and yet `Build` replaces the target's
selection and grouping instead of leaving them as they were. -/
theorem Build_zero_length_fields_overwrite :
    selectingTarget.empty = false ∧
    emptyFieldsFragment.SelectClause.Fields.len = 0 ∧
    emptyFieldsFragment.GroupClause.Fields.len = 0 ∧
    (emptyFieldsFragment.Build selectingTarget).SelectClause ≠ selectingTarget.SelectClause ∧
    (emptyFieldsFragment.Build selectingTarget).GroupClause.Fields
      ≠ selectingTarget.GroupClause.Fields := by
  refine ⟨rfl, rfl, rfl, ?_, ?_⟩ <;>
    simp [Query.Build, emptyFieldsFragment, selectingTarget]

/-- C4, amended: for a target whose marker is unset, after `f.Build(&t)` the
selection is the fragment's exactly when the fragment's field list is non-nil
(a non-nil list with zero elements included) and is the target's previous
selection when it is nil; the grouping follows the same rule on the
fragment's group fields. A fragment with at least one field always
replaces. -/
theorem Build_selection_grouping_override (f t : Query) (h : t.empty = false) :
    (f.Build t).SelectClause
      = (if f.SelectClause.Fields ≠ none then f.SelectClause else t.SelectClause) ∧
    (f.Build t).GroupClause
      = (if f.GroupClause.Fields ≠ none then f.GroupClause else t.GroupClause) ∧
    (1 ≤ f.SelectClause.Fields.len → (f.Build t).SelectClause = f.SelectClause) ∧
    (1 ≤ f.GroupClause.Fields.len → (f.Build t).GroupClause = f.GroupClause) := by
  have hs : (f.Build t).SelectClause
      = (if f.SelectClause.Fields ≠ none then f.SelectClause else t.SelectClause) := by
    unfold Query.Build
    simp only [h, Bool.false_eq_true, if_false]
    split_ifs <;> simp_all
  have hg : (f.Build t).GroupClause
      = (if f.GroupClause.Fields ≠ none then f.GroupClause else t.GroupClause) := by
    unfold Query.Build
    simp only [h, Bool.false_eq_true, if_false]
    split_ifs <;> simp_all
  refine ⟨hs, hg, ?_, ?_⟩
  · intro h1
    rw [hs, if_pos]
    intro hn
    simp [hn, Slice.len, Slice.toList] at h1
  · intro h1
    rw [hg, if_pos]
    intro hn
    simp [hn, Slice.len, Slice.toList] at h1

/-- An instance of the amended selection/grouping policy: the zero-length
fragment merged into a target selecting `id` and grouping by `city`. -/
theorem Build_selection_grouping_override_witness :
    selectingTarget.empty = false ∧
    (emptyFieldsFragment.Build selectingTarget).SelectClause
      = (if emptyFieldsFragment.SelectClause.Fields ≠ none then emptyFieldsFragment.SelectClause
         else selectingTarget.SelectClause) :=
  ⟨rfl, (Build_selection_grouping_override emptyFieldsFragment selectingTarget rfl).1⟩

/-- C5: Join accumulation. For a target whose marker is unset, after
`f.Build(&t)` the joins are the target's previous joins followed by the
fragment's joins in their order; and merging a fragment whose joins are the
single clause `a`, then one whose joins are the single clause `b`, into the
zero-value Query gives joins exactly `[a, b]`. -/
theorem Build_joins_accumulate (f t : Query) (h : t.empty = false) :
    (f.Build t).JoinClause = goAppend t.JoinClause f.JoinClause ∧
    (f.Build t).JoinClause.toList = t.JoinClause.toList ++ f.JoinClause.toList ∧
    (∀ (f1 f2 : Query) (a b : JoinClause),
      f1.JoinClause.toList = [a] → f2.JoinClause.toList = [b] →
      (f2.Build (f1.Build zero)).JoinClause = some [a, b]) := by
  have hj : ∀ (g u : Query), u.empty = false →
      (g.Build u).JoinClause = goAppend u.JoinClause g.JoinClause := by
    intro g u hu
    unfold Query.Build
    simp only [hu, Bool.false_eq_true, if_false]
    split_ifs <;> simp_all
  refine ⟨hj f t h, ?_, ?_⟩
  · rw [hj f t h, goAppend_toList]
  · intro f1 f2 a b h1 h2
    have hz : zero.empty = false := rfl
    rw [hj f2 _ (Build_merge_empty f1 zero hz), hj f1 zero hz]
    have e1 : goAppend zero.JoinClause f1.JoinClause = some [a] := by
      unfold goAppend
      rw [h1]
      rfl
    rw [e1]
    unfold goAppend
    rw [h2]
    rfl

/-- An instance of join accumulation: a `Join` fragment merged into a
target, and the two-fragment scenario on the zero value with the fragments
`Join("orders")` and `Join("items")`. -/
theorem Build_joins_accumulate_witness :
    selectingTarget.empty = false ∧
    ((Join "orders").Build selectingTarget).JoinClause
      = goAppend selectingTarget.JoinClause (Join "orders").JoinClause ∧
    ((Join "items").Build ((Join "orders").Build zero)).JoinClause
      = some [NewJoinWith "JOIN" "orders" "" "", NewJoinWith "JOIN" "items" "" ""] :=
  ⟨rfl, (Build_joins_accumulate (Join "orders") selectingTarget rfl).1,
    (Build_joins_accumulate (Join "orders") selectingTarget rfl).2.2
      (Join "orders") (Join "items") _ _ rfl rfl⟩

/-- C6: Override-wins-last. For every sequence of fragments merged in order
with `Build` into the zero-value Query, the final collection is that of the
last fragment with a non-empty collection, and empty when there is none; the
final offset and limit are those of the last fragment with a non-zero offset,
respectively limit, and zero when there is none. -/
theorem buildAll_override_wins_last (fs : List Query) :
    (buildAll fs zero).Collection
      = lastSet (fun f => decide (f.Collection ≠ "")) (fun f => f.Collection) "" fs ∧
    (buildAll fs zero).OffsetClause
      = lastSet (fun f => decide (f.OffsetClause ≠ 0)) (fun f => f.OffsetClause) 0 fs ∧
    (buildAll fs zero).LimitClause
      = lastSet (fun f => decide (f.LimitClause ≠ 0)) (fun f => f.LimitClause) 0 fs := by
  have hz : zero.empty = false := rfl
  refine ⟨?_, ?_, ?_⟩
  · exact buildAll_lastSet (fun f => decide (f.Collection ≠ "")) (fun f => f.Collection)
      (fun f t ht => by simpa using (Build_scalars f t ht).1) fs zero hz
  · exact buildAll_lastSet (fun f => decide (f.OffsetClause ≠ 0)) (fun f => f.OffsetClause)
      (fun f t ht => by simpa using (Build_scalars f t ht).2.1) fs zero hz
  · exact buildAll_lastSet (fun f => decide (f.LimitClause ≠ 0)) (fun f => f.LimitClause)
      (fun f t ht => by simpa using (Build_scalars f t ht).2.2) fs zero hz

/-- C7, as stated, fails on a pristine target: merging the zero-value Query
into `pristineTarget` (marker set, collection `users`) replaces the target,
so its collection and its marker both change. -/
theorem Build_zero_changes_pristine :
    (zero.Build pristineTarget).Collection ≠ pristineTarget.Collection ∧
    (zero.Build pristineTarget).empty ≠ pristineTarget.empty := by
  constructor
  · simp only [Query.Build, zero, pristineTarget, if_true]
    decide
  · simp [Query.Build, zero, pristineTarget]

/-- C7, amended: for every target whose marker is unset, merging the
zero-value Query with `Build` leaves collection, selection, grouping, offset
and limit unchanged, leaves joins and sorts as they were, and sets the filter
to the previous filter AND-combined with the neutral filter, which is the
previous filter; the target afterwards equals the target before. -/
theorem Build_zero_identity (t : Query) (h : t.empty = false) :
    (zero.Build t).Collection = t.Collection ∧
    (zero.Build t).SelectClause = t.SelectClause ∧
    (zero.Build t).GroupClause = t.GroupClause ∧
    (zero.Build t).OffsetClause = t.OffsetClause ∧
    (zero.Build t).LimitClause = t.LimitClause ∧
    (zero.Build t).JoinClause = goAppend t.JoinClause none ∧
    (zero.Build t).JoinClause = t.JoinClause ∧
    (zero.Build t).SortClause = t.SortClause ∧
    (zero.Build t).WhereClause = t.WhereClause.And [FilterClause.neutral] ∧
    (zero.Build t).WhereClause = t.WhereClause ∧
    zero.Build t = t := by
  have hb : zero.Build t
      = { t with JoinClause := goAppend t.JoinClause none,
                 WhereClause := t.WhereClause.And [FilterClause.neutral] } := by
    simp [Query.Build, zero, h]
  have ht : zero.Build t = t := by
    rw [hb, goAppend_nil, And_neutral]
  exact ⟨by rw [ht], by rw [ht], by rw [ht], by rw [ht], by rw [ht],
    by rw [ht, goAppend_nil], by rw [ht], by rw [ht], by rw [ht, And_neutral], by rw [ht], ht⟩

/-- An instance of the merge identity on a target selecting `id` and
grouping by `city`. -/
theorem Build_zero_identity_witness :
    selectingTarget.empty = false ∧ zero.Build selectingTarget = selectingTarget :=
  ⟨rfl, (Build_zero_identity selectingTarget rfl).2.2.2.2.2.2.2.2.2.2⟩

/-- C8: Join-fragment merge scenario. For every collection `c`, join
collection `j`, filter `p` and limit `n`, merging the fragment `Join(j)` into
`From(c).Where(p).Limit(n)` gives a Query with collection `c`, selection
exactly `[c + ".*"]`, exactly one join, of mode `JOIN` on collection `j`,
filter `p` and limit `n`. -/
theorem Build_join_into_from_where_limit (c j : String) (p : FilterClause) (n : Limit) :
    ((Join j).Build (((From c).Where [p]).Limit n)).Collection = c ∧
    ((Join j).Build (((From c).Where [p]).Limit n)).SelectClause.Fields = some [c ++ ".*"] ∧
    ((Join j).Build (((From c).Where [p]).Limit n)).JoinClause
      = some [NewJoinWith "JOIN" j "" ""] ∧
    (NewJoinWith "JOIN" j "" "").Mode = "JOIN" ∧
    (NewJoinWith "JOIN" j "" "").Collection = j ∧
    ((Join j).Build (((From c).Where [p]).Limit n)).WhereClause = p ∧
    ((Join j).Build (((From c).Where [p]).Limit n)).LimitClause = n := by
  have hb : (Join j).Build (((From c).Where [p]).Limit n)
      = { Collection := c, SelectClause := NewSelect (some [c ++ ".*"]),
          JoinClause := some [NewJoinWith "JOIN" j "" ""],
          WhereClause := (FilterClause.neutral.And [p]).And [FilterClause.neutral],
          LimitClause := n } := by
    simp [Query.Build, Join, JoinOn, JoinWith, From, Query.Where, Query.Limit, goAppend,
      Slice.toList]
  rw [hb, neutral_And_single, And_neutral]
  simp [NewSelect, NewJoinWith]

/-- C9: From defaults the selection. The function `From(c)` gives collection
`c`, selection fields exactly `[c + ".*"]` and the distinct flag off; the
chain method `q.From(c)` sets the collection to `c` and sets the selection to
the fields `[c + ".*"]` when `q` has zero selected fields (a nil or a
zero-length list), leaving the selection as it was otherwise. -/
theorem From_defaults_selection (c : String) (q : Query) :
    (From c).Collection = c ∧
    (From c).SelectClause.Fields = some [c ++ ".*"] ∧
    (From c).SelectClause.OnlyDistinct = false ∧
    (q.From c).Collection = c ∧
    (q.From c).SelectClause
      = (if q.SelectClause.Fields.len = 0 then NewSelect (some [c ++ ".*"])
         else q.SelectClause) ∧
    (NewSelect (some [c ++ ".*"])).Fields = some [c ++ ".*"] := by
  refine ⟨rfl, rfl, rfl, ?_, ?_, rfl⟩
  · by_cases hl : q.SelectClause.Fields.len = 0 <;> simp [Query.From, hl]
  · by_cases hl : q.SelectClause.Fields.len = 0 <;> simp [Query.From, hl]

/-- C10, as stated, fails: `havingTarget` carries the having-filter `id = 1`
and after `Group("city")` it still carries it, so the having-filter of the
result is not the neutral filter. -/
theorem Group_keeps_having_example :
    (havingTarget.Group (some ["city"])).GroupClause.Fields = some ["city"] ∧
    (havingTarget.Group (some ["city"])).GroupClause.Filter = FilterEq "id" (.int 1) ∧
    (havingTarget.Group (some ["city"])).GroupClause.Filter ≠ FilterClause.neutral := by
  refine ⟨rfl, rfl, ?_⟩
  simp [Query.Group, havingTarget, FilterEq]

/-- C10, amended: for every Query `q` and field list `fs`, `q.Group(fs)` has
grouping fields exactly `fs` and the having-filter `q` carried; in
particular `q.Having(ps).Group(fs)` carries the having-filter of
`q.Having(ps)`. -/
theorem Group_sets_fields_keeps_having (q : Query) (fs : Slice String)
    (ps : List FilterClause) :
    (q.Group fs).GroupClause.Fields = fs ∧
    (q.Group fs).GroupClause.Filter = q.GroupClause.Filter ∧
    ((q.Having ps).Group fs).GroupClause.Filter = q.GroupClause.Filter.And ps :=
  ⟨rfl, rfl, rfl⟩

/-! ## Helper lemmas for the chain methods -/

theorem fill_range (mk : String → SortClause) (l : List String) (d : SortClause) :
    ∀ k, k ≤ l.length →
      (List.range k).foldl (fun sorts i => sorts.set i (mk (l.getD i ""))) (List.replicate l.length d)
        = (l.take k).map mk ++ List.replicate (l.length - k) d := by
  intro k
  induction k with
  | zero => intro _; simp
  | succ k ih =>
    intro hk
    have hlt : k < l.length := hk
    rw [List.range_succ, List.foldl_append, ih (Nat.le_of_lt hlt)]
    have hrep : List.replicate (l.length - k) d = d :: List.replicate (l.length - (k + 1)) d := by
      have : l.length - k = (l.length - (k + 1)) + 1 := by omega
      rw [this, List.replicate_succ]
    have hlen : (List.map mk (List.take k l)).length = k := by
      simp [List.length_take, Nat.min_eq_left (Nat.le_of_lt hlt)]
    rw [hrep]
    simp only [List.foldl_cons, List.foldl_nil]
    rw [List.set_append_right _ _ (by rw [hlen]), hlen, Nat.sub_self, List.set_cons_zero,
      List.getD_eq_getElem _ _ hlt]
    have ht : List.take (k + 1) l = List.take k l ++ [l[k]] := by
      rw [List.take_succ, List.getElem?_eq_getElem hlt]
      rfl
    rw [ht, List.map_append, List.append_assoc]
    rfl

theorem makeSorts_eq (mk : String → SortClause) (fields : Slice String) :
    makeSorts mk fields = some (fields.toList.map mk) := by
  unfold makeSorts Slice.len
  rw [fill_range mk fields.toList {} fields.toList.length (Nat.le_refl _)]
  simp

theorem SortAsc_sorts (q : Query) (fs : Slice String) :
    (q.SortAsc fs).SortClause.toList = q.SortClause.toList ++ fs.toList.map NewSortAsc := by
  show (goAppend q.SortClause (makeSorts NewSortAsc fs)).toList = _
  rw [makeSorts_eq, goAppend_toList]
  rfl

theorem SortDesc_sorts (q : Query) (fs : Slice String) :
    (q.SortDesc fs).SortClause.toList = q.SortClause.toList ++ fs.toList.map NewSortDesc := by
  show (goAppend q.SortClause (makeSorts NewSortDesc fs)).toList = _
  rw [makeSorts_eq, goAppend_toList]
  rfl

/-! ## Theorems on the chain methods -/

/-- C11, as stated, fails: `Sort("a")` then `Sort("b")` on the zero-value
Query gives the sorts `[a, b]`, the later clause after the earlier one, not
`[b, a]`. -/
theorem Sort_twice_appends :
    ((zero.Sort (some ["a"])).Sort (some ["b"])).SortClause
      = some [NewSortAsc "a", NewSortAsc "b"] ∧
    ((zero.Sort (some ["a"])).Sort (some ["b"])).SortClause
      ≠ some [NewSortAsc "b", NewSortAsc "a"] := by
  have h : ((zero.Sort (some ["a"])).Sort (some ["b"])).SortClause
      = some [NewSortAsc "a", NewSortAsc "b"] := by
    simp [Query.Sort, Query.SortAsc, makeSorts_eq, goAppend, Slice.toList, zero]
  refine ⟨h, ?_⟩
  rw [h]
  decide

/-- C11, amended: chain sort operations append. For every Query `q` and
field list `fs`, the sorts of `q.Sort(fs)`, `q.SortAsc(fs)` and
`q.SortDesc(fs)` are `q`'s already-accumulated sorts followed by the newly
created clauses for `fs`; so `q.Sort("a").Sort("b")` has the clause for `a`
before the clause for `b`. -/
theorem Sort_chain_appends (q : Query) (fs : Slice String) :
    (q.Sort fs).SortClause.toList = q.SortClause.toList ++ fs.toList.map NewSortAsc ∧
    (q.SortAsc fs).SortClause.toList = q.SortClause.toList ++ fs.toList.map NewSortAsc ∧
    (q.SortDesc fs).SortClause.toList = q.SortClause.toList ++ fs.toList.map NewSortDesc ∧
    ((q.Sort (some ["a"])).Sort (some ["b"])).SortClause.toList
      = q.SortClause.toList ++ [NewSortAsc "a", NewSortAsc "b"] := by
  refine ⟨SortAsc_sorts q fs, SortAsc_sorts q fs, SortDesc_sorts q fs, ?_⟩
  unfold Query.Sort
  rw [SortAsc_sorts, SortAsc_sorts]
  simp [Slice.toList]

/-- C12: chain join operations append exactly one join. For every Query `q`
and all strings, `q.JoinWith(mode, c, from, to)` has the joins of `q`
followed by the single clause `NewJoinWith(mode, c, from, to)` and every
other field of `q` unchanged; `q.Join(c)` is `q.JoinWith("JOIN", c, "", "")`
and `q.JoinOn(c, from, to)` is `q.JoinWith("JOIN", c, from, to)`. -/
theorem JoinWith_chain_appends_one (q : Query) (mode c a b : String) :
    (q.JoinWith mode c a b).JoinClause.toList
      = q.JoinClause.toList ++ [NewJoinWith mode c a b] ∧
    q.JoinWith mode c a b
      = { q with JoinClause := some (q.JoinClause.toList ++ [NewJoinWith mode c a b]) } ∧
    q.Join c = q.JoinWith "JOIN" c "" "" ∧
    q.JoinOn c a b = q.JoinWith "JOIN" c a b := by
  refine ⟨?_, ?_, rfl, rfl⟩
  · show (goAppend q.JoinClause (some [NewJoinWith mode c a b])).toList = _
    rw [goAppend_toList]
    rfl
  · rfl

/-- C16: chain sort content and position. For every Query `q` and field
list `fs`, `q.SortAsc(fs)` has the sorts of `q` followed by the clauses
`NewSortAsc(f)` for the fields in order, `q.SortDesc(fs)` the sorts of `q`
followed by the clauses `NewSortDesc(f)`, `q.Sort(fs)` equals `q.SortAsc(fs)`,
the number of sorts grows by the number of fields, and no other field of `q`
changes. -/
theorem Sort_chain_content (q : Query) (fs : Slice String) :
    (q.SortAsc fs).SortClause.toList = q.SortClause.toList ++ fs.toList.map NewSortAsc ∧
    (q.SortDesc fs).SortClause.toList = q.SortClause.toList ++ fs.toList.map NewSortDesc ∧
    q.Sort fs = q.SortAsc fs ∧
    (q.SortAsc fs).SortClause.len = q.SortClause.len + fs.len ∧
    (q.SortDesc fs).SortClause.len = q.SortClause.len + fs.len ∧
    q.SortAsc fs = { q with SortClause := (q.SortAsc fs).SortClause } ∧
    q.SortDesc fs = { q with SortClause := (q.SortDesc fs).SortClause } := by
  refine ⟨SortAsc_sorts q fs, SortDesc_sorts q fs, rfl, ?_, ?_, rfl, rfl⟩
  · unfold Slice.len
    rw [SortAsc_sorts, List.length_append, List.length_map]
  · unfold Slice.len
    rw [SortDesc_sorts, List.length_append, List.length_map]

theorem holdsAll_append (sat : String → String → List Value → Bool) (xs ys : List FilterClause) :
    holdsAll sat (xs ++ ys) = (holdsAll sat xs && holdsAll sat ys) := by
  induction xs with
  | nil => simp [holdsAll]
  | cons x xs ih => simp [holdsAll, ih, Bool.and_assoc]

theorem holdsAll_andOperands (sat : String → String → List Value → Bool) (p : FilterClause) :
    holdsAll sat p.andOperands = p.holds sat := by
  cases p <;> simp [FilterClause.andOperands, holdsAll, FilterClause.holds]

theorem holdsAll_flatMap (sat : String → String → List Value → Bool) (ops : List FilterClause) :
    holdsAll sat (ops.flatMap FilterClause.andOperands) = holdsAll sat ops := by
  induction ops with
  | nil => simp [holdsAll]
  | cons x xs ih =>
    rw [List.flatMap_cons, holdsAll_append, holdsAll_andOperands, ih]
    simp [holdsAll]

theorem holdsAll_filter (sat : String → String → List Value → Bool) (ops : List FilterClause) :
    holdsAll sat (ops.filter (fun f => !f.isNeutral)) = holdsAll sat ops := by
  induction ops with
  | nil => simp [holdsAll]
  | cons x xs ih =>
    cases hx : x.isNeutral with
    | true =>
      have hn : x.holds sat = true := by
        cases x <;> simp_all [FilterClause.isNeutral, FilterClause.holds]
      simp only [List.filter_cons, hx, Bool.not_true, Bool.false_eq_true, if_false, holdsAll, ih,
        hn, Bool.true_and]
    | false =>
      simp only [List.filter_cons, hx, Bool.not_false, if_true, holdsAll, ih]

theorem And_holds (sat : String → String → List Value → Bool) (c : FilterClause)
    (others : List FilterClause) :
    (c.And others).holds sat = holdsAll sat (c :: others) := by
  rw [← holdsAll_filter sat (c :: others)]
  unfold FilterClause.And
  generalize (c :: others).filter (fun f => !f.isNeutral) = ops
  match ops with
  | [] => simp [holdsAll, FilterClause.holds]
  | [x] => simp [holdsAll]
  | x :: y :: rest =>
    simp only [FilterClause.holds]
    rw [holdsAll_flatMap]

/-! ## Theorems on the filter tree -/

/-- C13: filter accumulation. For every Query `q` whose filter is unset and
all filters `p1`, `p2`, a row satisfies the filter of
`q.Where(p1).Where(p2)` exactly when it satisfies both `p1` and `p2`. -/
theorem Where_twice_is_conjunction (q : Query) (hq : q.WhereClause = FilterClause.neutral)
    (p1 p2 : FilterClause) (sat : String → String → List Value → Bool) :
    ((q.Where [p1]).Where [p2]).WhereClause.holds sat = (p1.holds sat && p2.holds sat) := by
  show ((q.WhereClause.And [p1]).And [p2]).holds sat = _
  rw [And_holds, hq]
  simp [holdsAll, And_holds, FilterClause.holds]

/-- An instance of filter accumulation on the zero-value Query with the
filters `id = 1` and `name = "x"`, for a row satisfying neither. -/
theorem Where_twice_is_conjunction_witness :
    zero.WhereClause = FilterClause.neutral ∧
    ((zero.Where [FilterEq "id" (.int 1)]).Where
        [FilterEq "name" (.str "x")]).WhereClause.holds (fun _ _ _ => false)
      = ((FilterEq "id" (.int 1)).holds (fun _ _ _ => false)
          && (FilterEq "name" (.str "x")).holds (fun _ _ _ => false)) :=
  ⟨rfl, Where_twice_is_conjunction zero rfl _ _ _⟩

/-! ## Theorems on isolation, the marker and call order -/

/-- C15 at a receiver whose sorts have spare capacity (length 1, capacity
2): after `q2 := q1.SortAsc("b")` the sorts of `q2` are `[x, b]`, and after
`q3 := q1.SortAsc("c")` the sorts seen through `q2` are `[x, c]`: the second
append wrote into the backing array the two derived queries share. The same
happens to the joins of two copies of one target merged with `Build`. -/
theorem SortAsc_shares_backing_array (grow : Nat → Nat) :
    (derivedB grow).1.view (derivedB grow).2 = [NewSortAsc "x", NewSortAsc "b"] ∧
    (derivedC grow).1.view (derivedC grow).2 = [NewSortAsc "x", NewSortAsc "c"] ∧
    (derivedC grow).1.view (derivedB grow).2 = [NewSortAsc "x", NewSortAsc "c"] ∧
    (mergedB grow).1.view (mergedB grow).2
      = [NewJoinWith "JOIN" "a" "" "", NewJoinWith "JOIN" "b" "" ""] ∧
    (mergedC grow).1.view (mergedB grow).2
      = [NewJoinWith "JOIN" "a" "" "", NewJoinWith "JOIN" "c" "" ""] := by
  refine ⟨rfl, rfl, rfl, rfl, rfl⟩

/-- C18: the marker is never set. Every query reachable from the zero value
or the package-level constructors has `empty` false, so `Build` on it takes
the merge branch; the constructors give `empty` false, every chain method
returns the marker of its receiver, and the merge branch of `Build` leaves
the target's marker as it was. -/
theorem emptyMarker_never_set (q : Query) (hq : Reachable q) :
    q.empty = false ∧
    (∀ (c a b m e : String) (args : Slice Value) (ps : List FilterClause) (fs : Slice String),
      (From c).empty = false ∧ (Join c).empty = false ∧ (JoinOn c a b).empty = false ∧
      (JoinWith m c a b).empty = false ∧ (JoinFragment e args).empty = false ∧
      (Where ps).empty = false ∧ (Group fs).empty = false) ∧
    (∀ (r : Query) (c : String) (ps : List FilterClause) (fs : Slice String) (n : Int),
      (r.Select fs).empty = r.empty ∧ (r.From c).empty = r.empty ∧
      r.Distinct.empty = r.empty ∧ (r.Where ps).empty = r.empty ∧
      (r.OrWhere ps).empty = r.empty ∧ (r.Group fs).empty = r.empty ∧
      (r.Having ps).empty = r.empty ∧ (r.OrHaving ps).empty = r.empty ∧
      (r.Sort fs).empty = r.empty ∧ (r.SortAsc fs).empty = r.empty ∧
      (r.SortDesc fs).empty = r.empty ∧ (r.Offset n).empty = r.empty ∧
      (r.Limit n).empty = r.empty) ∧
    (∀ f t : Query, t.empty = false → (f.Build t).empty = t.empty) := by
  have hFrom : ∀ (r : Query) (c : String), (r.From c).empty = r.empty := by
    intro r c
    by_cases hl : r.SelectClause.Fields.len = 0 <;> simp [Query.From, hl]
  refine ⟨?_, fun _ _ _ _ _ _ _ _ => ⟨rfl, rfl, rfl, rfl, rfl, rfl, rfl⟩,
    fun r c _ _ _ => ⟨rfl, hFrom r c, rfl, rfl, rfl, rfl, rfl, rfl, rfl, rfl, rfl, rfl, rfl⟩,
    fun f t ht => by rw [Build_merge_empty f t ht, ht]⟩
  induction hq with
  | zeroValue => rfl
  | pkgFrom c => rfl
  | pkgJoin c => rfl
  | pkgJoinOn c a b => rfl
  | pkgJoinWith m c a b => rfl
  | pkgJoinFragment e args => rfl
  | pkgWhere ps => rfl
  | pkgGroup fs => rfl
  | select q fs _ ih => exact ih
  | chainFrom q c _ ih => rw [hFrom]; exact ih
  | distinct q _ ih => exact ih
  | chainWhere q ps _ ih => exact ih
  | orWhere q ps _ ih => exact ih
  | group q fs _ ih => exact ih
  | having q ps _ ih => exact ih
  | orHaving q ps _ ih => exact ih
  | sort q fs _ ih => exact ih
  | sortAsc q fs _ ih => exact ih
  | sortDesc q fs _ ih => exact ih
  | offset q n _ ih => exact ih
  | limit q n _ ih => exact ih
  | build f t _ ih => exact Build_merge_empty f t ih

/-- An instance of the marker law on `From("users").Where(id = 1).Limit(10)`
merged with the fragment `Join("orders")`. -/
theorem emptyMarker_never_set_witness :
    Reachable ((Join "orders").Build
      (((From "users").Where [FilterEq "id" (.int 1)]).Limit 10)) ∧
    ((Join "orders").Build
      (((From "users").Where [FilterEq "id" (.int 1)]).Limit 10)).empty = false :=
  ⟨Reachable.build _ _ (Reachable.limit _ _ (Reachable.chainWhere _ _ (Reachable.pkgFrom _))),
    (emptyMarker_never_set _
      (Reachable.build _ _
        (Reachable.limit _ _ (Reachable.chainWhere _ _ (Reachable.pkgFrom _))))).1⟩

/-- C19: Distinct and From do not commute on a query with no selected
fields. When `q` has zero selected fields, `q.From(c).Distinct()` has the
distinct flag on while `q.Distinct().From(c)` has it off; when `q` has at
least one selected field the two orders give the same Query. -/
theorem Distinct_From_order (q : Query) (c : String) :
    (q.SelectClause.Fields.len = 0 →
      (q.From c).Distinct.SelectClause.OnlyDistinct = true ∧
      (q.Distinct.From c).SelectClause.OnlyDistinct = false) ∧
    (1 ≤ q.SelectClause.Fields.len → (q.From c).Distinct = q.Distinct.From c) := by
  constructor
  · intro h0
    have h1 : q.Distinct.SelectClause.Fields.len = 0 := h0
    constructor
    · rfl
    · simp [Query.From, h1, NewSelect]
  · intro h1
    have h2 : ¬ q.SelectClause.Fields.len = 0 := by omega
    have h3 : ¬ q.Distinct.SelectClause.Fields.len = 0 := h2
    simp [Query.From, h2, h3, Query.Distinct]

/-- An instance of the order law: on the zero-value Query the two orders
differ in the distinct flag, on a target selecting `id` they agree. -/
theorem Distinct_From_order_witness :
    zero.SelectClause.Fields.len = 0 ∧
    ((zero.From "users").Distinct.SelectClause.OnlyDistinct = true ∧
      (zero.Distinct.From "users").SelectClause.OnlyDistinct = false) ∧
    1 ≤ selectingTarget.SelectClause.Fields.len ∧
    (selectingTarget.From "users").Distinct = selectingTarget.Distinct.From "users" :=
  ⟨rfl, (Distinct_From_order zero "users").1 rfl, by decide,
    (Distinct_From_order selectingTarget "users").2 (by decide)⟩

end Grimoire
